import Mathlib

/-!
Verification of the distractor-generation pipeline in `src/run.py`.

The development shallowly embeds the JSON values the program reads and
writes (`json.load` / `json.dump(..., indent=4)` from the Python standard
library, restricted to the fragment the program exercises: integers are
modelled, floats and `\uXXXX` escapes are not, and non-ASCII characters are
written verbatim rather than `ensure_ascii`-escaped — parse-equivalent for
every content the claims mention), the output-file persistence routine
`append_to_output_file`, the dataset reader `read_test_data_iter`, and the
batch driver `process_test_data`.  The model backend (`get_local_response`)
is an external collaborator and is passed in as an oracle indexed by the
running call count, receiving the exact prompt string the driver builds.
Files are byte sequences (`List Char`): `append_to_output_file` re-reads the
whole file, appends, seeks to the start and rewrites WITHOUT truncating,
exactly as the source does, so any old bytes beyond the rewritten prefix
survive.
-/

/- JSON values, as a mutual inductive family so that all functions over it
are structurally recursive (array and object spines get their own types). -/
mutual
/-- A JSON value of the fragment the program reads and writes. -/
inductive Json where
  | null : Json
  | bool (b : Bool) : Json
  | num (n : Int) : Json
  | str (s : String) : Json
  | arr (elems : JArr) : Json
  | obj (members : JObj) : Json
inductive JArr where
  | nil : JArr
  | cons (hd : Json) (tl : JArr) : JArr
inductive JObj where
  | nil : JObj
  | cons (key : String) (val : Json) (tl : JObj) : JObj
end

/-- Convert a `List Json` into an array spine. -/
def listToJArr : List Json → JArr
  | [] => .nil
  | x :: xs => .cons x (listToJArr xs)

/-- Convert an array spine back into a `List Json`. -/
def jarrToList : JArr → List Json
  | .nil => []
  | .cons x xs => x :: jarrToList xs

/-- Convert a list of key-value pairs into an object spine. -/
def listToJObj : List (String × Json) → JObj
  | [] => .nil
  | (k, v) :: xs => .cons k v (listToJObj xs)

/-- The keys of an object spine, in order. -/
def jobjKeys : JObj → List String
  | .nil => []
  | .cons k _ tl => k :: jobjKeys tl

/-- The opening curly brace character. -/
def lbraceChar : Char := Char.ofNat 123

/-- The closing curly brace character. -/
def rbraceChar : Char := Char.ofNat 125

/-- `n` spaces, the indentation unit of `json.dump(..., indent=4)`. -/
def spacesChars (n : Nat) : List Char := List.replicate n ' '

/-- Escape one character inside a JSON string, as `json.dump` does for the
characters the program's data can contain. -/
def escChar (c : Char) : List Char :=
  if c = '"' then ['\\', '"']
  else if c = '\\' then ['\\', '\\']
  else if c = '\n' then ['\\', 'n']
  else if c = '\t' then ['\\', 't']
  else if c = '\r' then ['\\', 'r']
  else [c]

/-- Escape a whole string body. -/
def escList : List Char → List Char
  | [] => []
  | c :: cs => escChar c ++ escList cs

/- Serialization of a JSON value at indentation level `ind`, following the
layout of CPython's `json.dump(x, f, indent=4)`: elements and members on
their own lines, item separator `,`, key separator `: `, empty containers
rendered inline. -/
mutual
/-- Serialize one JSON value at indentation level `ind`. -/
def serVal (ind : Nat) : Json → List Char
  | .null => ['n', 'u', 'l', 'l']
  | .bool b => if b then ['t', 'r', 'u', 'e'] else ['f', 'a', 'l', 's', 'e']
  | .num n => (toString n).data
  | .str s => '"' :: (escList s.data ++ ['"'])
  | .arr .nil => ['[', ']']
  | .arr (.cons x tl) =>
      '[' :: '\n' :: (spacesChars (ind + 4) ++ serVal (ind + 4) x ++
        serElemsRest (ind + 4) tl ++ '\n' :: (spacesChars ind ++ [']']))
  | .obj .nil => [lbraceChar, rbraceChar]
  | .obj (.cons k v tl) =>
      lbraceChar :: '\n' :: (spacesChars (ind + 4) ++ serMember (ind + 4) k v ++
        serMembersRest (ind + 4) tl ++ '\n' :: (spacesChars ind ++ [rbraceChar]))

def serMember (ind : Nat) (k : String) (v : Json) : List Char :=
  '"' :: (escList k.data ++ '"' :: ':' :: ' ' :: serVal ind v)

def serElemsRest (ind : Nat) : JArr → List Char
  | .nil => []
  | .cons y tl => ',' :: '\n' :: (spacesChars ind ++ serVal ind y ++ serElemsRest ind tl)

def serMembersRest (ind : Nat) : JObj → List Char
  | .nil => []
  | .cons k v tl => ',' :: '\n' :: (spacesChars ind ++ serMember ind k v ++ serMembersRest ind tl)
end

/-- Whitespace predicate of the JSON grammar. -/
def isWsChar (c : Char) : Prop := c = ' ' ∨ c = '\n' ∨ c = '\t' ∨ c = '\r'

instance (c : Char) : Decidable (isWsChar c) := by unfold isWsChar; infer_instance

/-- Drop leading JSON whitespace. -/
def skipWs : List Char → List Char
  | [] => []
  | c :: cs => if isWsChar c then skipWs cs else c :: cs

/-- Un-escape the character after a backslash in a JSON string
(`\uXXXX` escapes are outside the modelled fragment). -/
def unescChar (c : Char) : Option Char :=
  if c = '"' then some '"'
  else if c = '\\' then some '\\'
  else if c = '/' then some '/'
  else if c = 'n' then some '\n'
  else if c = 't' then some '\t'
  else if c = 'r' then some '\r'
  else if c = 'b' then some (Char.ofNat 8)
  else if c = 'f' then some (Char.ofNat 12)
  else none

/-- Parse the body of a JSON string after the opening quote; returns the
decoded characters and the remainder after the closing quote. -/
def parseStringBody : List Char → Option (List Char × List Char)
  | [] => none
  | c :: rest =>
    if c = '"' then some ([], rest)
    else if c = '\\' then
      match rest with
      | [] => none
      | e :: rest2 =>
        match unescChar e with
        | none => none
        | some u =>
          match parseStringBody rest2 with
          | none => none
          | some (s, r) => some (u :: s, r)
    else
      match parseStringBody rest with
      | none => none
      | some (s, r) => some (c :: s, r)

/-- Numeric value of a decimal digit character. -/
def digitVal (c : Char) : Nat := c.toNat - 48

/-- Fold a digit list into a natural number. -/
def digitsToNat (ds : List Char) : Nat := ds.foldl (fun a c => a * 10 + digitVal c) 0

/-- Does the remainder start with a float indicator?  Floats are outside the
modelled JSON fragment (the program's data has no floats), so a number
followed by `.`, `e` or `E` fails to parse in this model. -/
def startsFloat : List Char → Bool
  | [] => false
  | c :: _ => if c = '.' ∨ c = 'e' ∨ c = 'E' then true else false

/-- Parse a JSON integer literal. -/
def parseNumber (cs : List Char) : Option (Json × List Char) :=
  match cs with
  | '-' :: rest =>
    let ds := rest.takeWhile (fun c => c.isDigit)
    let r2 := rest.dropWhile (fun c => c.isDigit)
    if ds = [] then none
    else if startsFloat r2 then none
    else some (.num (-(digitsToNat ds : Int)), r2)
  | _ =>
    let ds := cs.takeWhile (fun c => c.isDigit)
    let r2 := cs.dropWhile (fun c => c.isDigit)
    if ds = [] then none
    else if startsFloat r2 then none
    else some (.num ((digitsToNat ds : Int)), r2)

/- Recursive-descent JSON value parser, the embedding of Python's
`json.load`.  `fuel` bounds the recursion depth and every recursive call
decreases it; the top-level entry point supplies fuel that is always
sufficient for the inputs the claims are about.  A value parse assumes
leading whitespace has been skipped. -/
mutual
/-- Parse one JSON value at the head of the input. -/
def parseValue : Nat → List Char → Option (Json × List Char)
  | 0, _ => none
  | fuel + 1, cs =>
    match cs with
    | [] => none
    | c :: rest =>
      if c = '"' then
        match parseStringBody rest with
        | some (s, r) => some (.str (String.mk s), r)
        | none => none
      else if c = '[' then
        match skipWs rest with
        | [] => none
        | c2 :: r => if c2 = ']' then some (.arr .nil, r) else parseElems fuel (c2 :: r) []
      else if c = lbraceChar then
        match skipWs rest with
        | [] => none
        | c2 :: r => if c2 = rbraceChar then some (.obj .nil, r) else parseMembers fuel (c2 :: r) []
      else if c = 'n' then
        match rest with
        | 'u' :: 'l' :: 'l' :: r => some (.null, r)
        | _ => none
      else if c = 't' then
        match rest with
        | 'r' :: 'u' :: 'e' :: r => some (.bool true, r)
        | _ => none
      else if c = 'f' then
        match rest with
        | 'a' :: 'l' :: 's' :: 'e' :: r => some (.bool false, r)
        | _ => none
      else parseNumber (c :: rest)

def parseElems : Nat → List Char → List Json → Option (Json × List Char)
  | 0, _, _ => none
  | fuel + 1, cs, acc =>
    match parseValue fuel cs with
    | none => none
    | some (v, rest) =>
      match skipWs rest with
      | [] => none
      | c2 :: r2 =>
        if c2 = ',' then parseElems fuel (skipWs r2) (acc ++ [v])
        else if c2 = ']' then some (.arr (listToJArr (acc ++ [v])), r2)
        else none

def parseMembers : Nat → List Char → List (String × Json) → Option (Json × List Char)
  | 0, _, _ => none
  | fuel + 1, cs, acc =>
    match cs with
    | '"' :: rest =>
      match parseStringBody rest with
      | none => none
      | some (k, r1) =>
        match skipWs r1 with
        | [] => none
        | c2 :: r2 =>
          if c2 = ':' then
            match parseValue fuel (skipWs r2) with
            | none => none
            | some (v, r3) =>
              match skipWs r3 with
              | [] => none
              | c5 :: r4 =>
                if c5 = ',' then parseMembers fuel (skipWs r4) (acc ++ [(String.mk k, v)])
                else if c5 = rbraceChar then
                  some (.obj (listToJObj (acc ++ [(String.mk k, v)])), r4)
                else none
          else none
    | _ => none
end

/-- The embedding of `json.load` on a whole file content: skip leading
whitespace, parse one value, and require only whitespace after it.
`none` corresponds to `json.JSONDecodeError`. -/
def jsonLoadsChars (cs : List Char) : Option Json :=
  match parseValue (2 * cs.length + 2) (skipWs cs) with
  | some (v, rest) => if skipWs rest = [] then some v else none
  | none => none

/-- A file on disk: `none` when absent (`os.path.exists` is false),
`some content` otherwise. -/
def loadsFile : Option (List Char) → Option Json
  | none => none
  | some cs => jsonLoadsChars cs

/-- `append_to_output_file(output_file, data)` from `src/run.py` lines
27-41: if the file exists, `json.load` it (a failed parse yields the empty
list, a non-list value is wrapped in a singleton list), append `data`,
`seek(0)` and `json.dump(..., indent=4)` — with NO truncation, so old bytes
beyond the rewritten prefix survive; if the file is absent, write
`[data]`. -/
def append_to_output_file (file : Option (List Char)) (data : Json) : Option (List Char) :=
  match file with
  | none => some (serVal 0 (.arr (listToJArr [data])))
  | some old =>
    let existing : List Json :=
      match jsonLoadsChars old with
      | some (.arr xs) => jarrToList xs
      | some v => [v]
      | none => []
    let newContent := serVal 0 (.arr (listToJArr (existing ++ [data])))
    some (newContent ++ old.drop newContent.length)

/-- One dataset entry as yielded by `read_test_data_iter`: exactly the three
fields extracted from the raw item. -/
structure QuestionRecord where
  question : Json
  correct_answer : Json
  support : Json

/-- One persisted result, the dictionary literal built in
`process_test_data` (`src/run.py` lines 99-105). -/
structure ResultRecord where
  question : Json
  correct_answer : Json
  distractor1 : String
  distractor2 : String
  distractor3 : String

/-- The JSON object actually handed to `append_to_output_file` for a
result: exactly the five keys of the source's dictionary literal, in
insertion order.  The input's `support` field is not among them. -/
def recJson (r : ResultRecord) : Json :=
  .obj (listToJObj
    [("question", r.question),
     ("correct_answer", r.correct_answer),
     ("distractor1", .str r.distractor1),
     ("distractor2", .str r.distractor2),
     ("distractor3", .str r.distractor3)])

/-- A result record whose question and answer happen to be JSON strings —
the shape every real dataset produces; used to state the persistence
claims. -/
structure FlatRecord where
  question : String
  correct_answer : String
  distractor1 : String
  distractor2 : String
  distractor3 : String

/-- View a flat record as a `ResultRecord`. -/
def FlatRecord.toRecord (f : FlatRecord) : ResultRecord :=
  ⟨.str f.question, .str f.correct_answer, f.distractor1, f.distractor2, f.distractor3⟩

/-- The five fields of a flat record as string pairs, in the source's
insertion order. -/
def flatPairs (f : FlatRecord) : List (String × String) :=
  [("question", f.question), ("correct_answer", f.correct_answer),
   ("distractor1", f.distractor1), ("distractor2", f.distractor2),
   ("distractor3", f.distractor3)]

/-- Tag every value of a key-value list as a JSON string. -/
def strMembers : List (String × String) → List (String × Json) :=
  List.map (fun p => (p.1, .str p.2))

/-- A sequence of appends starting from an absent output file. -/
def runAppends (rs : List ResultRecord) : Option (List Char) :=
  rs.foldl (fun f r => append_to_output_file f (recJson r)) none

/-- Python dict lookup on a parsed JSON object: the LAST occurrence of a
key wins, as `json.load` builds a `dict` by successive insertion. -/
def dictGet : JObj → String → Option Json
  | .nil, _ => none
  | .cons k v tl, key =>
    match dictGet tl key with
    | some r => some r
    | none => if k = key then some v else none

/-- One iteration step of `read_test_data_iter` (`src/run.py` lines 19-24):
`item["question"]`, `item["correct_answer"]`, `item["support"]`; a missing
key or a non-object item raises (here: `none`). -/
def readItem : Json → Option QuestionRecord
  | .obj kvs =>
    match dictGet kvs "question", dictGet kvs "correct_answer", dictGet kvs "support" with
    | some q, some c, some s => some ⟨q, c, s⟩
    | _, _, _ => none
  | _ => none

/-- Read every item of the decoded dataset in order. -/
def readItems : List Json → Option (List QuestionRecord)
  | [] => some []
  | it :: rest =>
    match readItem it, readItems rest with
    | some q, some qs => some (q :: qs)
    | _, _ => none

/-- `read_test_data_iter` (`src/run.py` lines 16-24) on an already decoded
dataset value: the dataset must be a JSON array (iterating any other decoded
value raises in the source before a record is produced) and each item yields
a `QuestionRecord` with exactly the three extracted fields. -/
def read_test_data_iter (dataset : Json) : Option (List QuestionRecord) :=
  match dataset with
  | .arr items => readItems (jarrToList items)
  | _ => none

/-- The pre-scan `total_items = sum(1 for _ in read_test_data_iter(test_file))`
(`src/run.py` line 80). -/
def total_items (dataset : Json) : Option Nat :=
  (read_test_data_iter dataset).map List.length

/-- The `prompt_config` entries the driver reads: the rationale-generation
template key `rg`, the distractor-generation template key `dg`, and the
rationale `format` hint. -/
structure PromptConfig where
  rg : String
  dg : String
  fmt : String

/-- Text of a JSON field when interpolated into a prompt. -/
def jsonFieldText (j : Json) : String :=
  match j with
  | .str s => s
  | _ => String.mk (serVal 0 j)

/-- Modelled from the spec: `PromptFramework.producePrompt` (file
`PromptFramwork.py`, which is not under `src/`) fills the template named by
`key` with the question record's fields and, when supplied, the principle
text, returning the literal prompt string sent to the model. -/
def producePrompt (key : String) (qd : QuestionRecord) (principle : Option String) : String :=
  key ++ ":" ++ jsonFieldText qd.question ++ "|" ++ jsonFieldText qd.correct_answer ++
    "|" ++ jsonFieldText qd.support ++
    (match principle with
     | some p => "|" ++ p
     | none => "")

/-- Does `cs` start with the pattern `pre`? -/
def startsWithChars : List Char → List Char → Bool
  | _, [] => true
  | [], _ :: _ => false
  | c :: cs, p :: ps => if c = p then startsWithChars cs ps else false

/-- Modelled from the spec: `utils.utils.format_rationale_output` (not under
`src/`) strips a configured boilerplate preamble according to the
`format` hint; if the pattern does not match it returns the raw text
unchanged (pass-through fallback). -/
def format_rationale_output (raw : String) (fmt : String) : String :=
  if startsWithChars raw.data fmt.data then String.mk (raw.data.drop fmt.data.length) else raw

/-- Boolean whitespace test for trimming candidate lines. -/
def wsB (c : Char) : Bool := if c = ' ' ∨ c = '\t' ∨ c = '\r' then true else false

/-- Strip leading and trailing blanks from a candidate line. -/
def trimBoth (cs : List Char) : List Char :=
  ((cs.dropWhile wsB).reverse.dropWhile wsB).reverse

/-- Split a text into lines at newline characters. -/
def splitOnNl : List Char → List (List Char)
  | [] => [[]]
  | c :: cs =>
    if c = '\n' then [] :: splitOnNl cs
    else
      match splitOnNl cs with
      | [] => [[c]]
      | l :: ls => (c :: l) :: ls

/-- Modelled from the spec: one line of raw model output is an enumerated
distractor candidate when it starts with a numbered marker `1.`, a bullet
`-`, or a parenthesised number `(1)`; the candidate text is the trimmed
remainder. -/
def lineCandidate (l : List Char) : Option String :=
  match l with
  | c :: '.' :: rest => if c.isDigit then some (String.mk (trimBoth rest)) else none
  | '-' :: rest => some (String.mk (trimBoth rest))
  | '(' :: c :: ')' :: rest => if c.isDigit then some (String.mk (trimBoth rest)) else none
  | _ => none

/-- The enumerated candidates found in a raw model output, in textual
order. -/
def candidateLines (raw : String) : List String :=
  (splitOnNl raw.data).filterMap lineCandidate

/-- The three extracted distractor strings. -/
structure ExtractedDistractors where
  distractor1 : String
  distractor2 : String
  distractor3 : String

/-- Modelled from the spec: `utils.utils.format_distractor_output` (not
under `src/`) scans the raw text for enumerated items; the first three found
win, missing slots become the empty string, and no input ever raises. -/
def format_distractor_output (raw : String) : ExtractedDistractors :=
  { distractor1 := (candidateLines raw).getD 0 ""
    distractor2 := (candidateLines raw).getD 1 ""
    distractor3 := (candidateLines raw).getD 2 "" }

/-- The driver's observable state: the output file, the number of model
calls made so far, and the `tqdm` progress counter. -/
structure DriverState where
  file : Option (List Char)
  calls : Nat
  progress : Nat

/-- The state at the start of a run: no output file yet (the claims'
scenario), no calls, progress `0`. -/
def initState : DriverState := ⟨none, 0, 0⟩

/-- The distractor-generation prompt as a function of the first stage's
model output `r` (`src/run.py` lines 91-92): the extracted rationale is
computed but NOT passed to the prompt builder, which receives the question
record alone. -/
def dg_prompt_for (cfg : PromptConfig) (qd : QuestionRecord) (r : String) : String :=
  let _inference := format_rationale_output r cfg.fmt
  producePrompt cfg.dg qd none

/-- The body of the per-item `try:` block in `process_test_data`
(`src/run.py` lines 86-106), with the model backend as an oracle `gen`
indexed by the running call count and receiving the exact prompt.  An
`.error` from the oracle is an exception raised by the model call; it aborts
the body at that point, so the append on line 106 is only reached after both
stages complete. -/
def process_one_item (cfg : PromptConfig) (principle : String)
    (gen : Nat → String → Except String String) (qd : QuestionRecord)
    (st : DriverState) : DriverState × Option String :=
  let rg_prompt := producePrompt cfg.rg qd (some principle)
  match gen st.calls rg_prompt with
  | .error e => ({ st with calls := st.calls + 1 }, some e)
  | .ok r =>
    let dg_prompt := dg_prompt_for cfg qd r
    match gen (st.calls + 1) dg_prompt with
    | .error e => ({ st with calls := st.calls + 2 }, some e)
    | .ok d =>
      let extracted_distractors := format_distractor_output d
      let result : ResultRecord :=
        { question := qd.question
          correct_answer := qd.correct_answer
          distractor1 := extracted_distractors.distractor1
          distractor2 := extracted_distractors.distractor2
          distractor3 := extracted_distractors.distractor3 }
      ({ st with calls := st.calls + 2,
                 file := append_to_output_file st.file (recJson result) }, none)

/-- The batch loop of `process_test_data` (`src/run.py` lines 84-108): for
each item run the `try:` body, then — in the `finally:` block — increment
the progress counter exactly once; an exception then propagates out of the
loop, ending the run with the remaining items untouched. -/
def process_loop (cfg : PromptConfig) (principle : String)
    (gen : Nat → String → Except String String) :
    List QuestionRecord → DriverState → DriverState × Option String
  | [], st => (st, none)
  | qd :: rest, st =>
    let step := process_one_item cfg principle gen qd st
    let st2 := { step.1 with progress := step.1.progress + 1 }
    match step.2 with
    | some e => (st2, some e)
    | none => process_loop cfg principle gen rest st2

/-- `process_test_data` on a decoded dataset: pre-scan for the total, then
drive the loop from the initial state. -/
def process_test_data (cfg : PromptConfig) (principle : String)
    (gen : Nat → String → Except String String) (dataset : Json) :
    Option (DriverState × Option String) :=
  match read_test_data_iter dataset with
  | none => none
  | some items => some (process_loop cfg principle gen items initState)

/-- The output path built in `main` (`src/run.py` line 141):
`f"{file_config['output_file']}-{args.model}-{args.prompt}.json"`. -/
def output_file_path (base model prompt : String) : String :=
  base ++ "-" ++ model ++ "-" ++ prompt ++ ".json"

/-- Does the remainder after an array element start with a separator the
serializer emits (nothing, a comma, or a newline)? -/
def sepHead : List Char → Prop
  | [] => True
  | c :: _ => c = ',' ∨ c = '\n'

/-- A JSON value that parses back from its own serialization (given any
remainder starting with an element separator) and whose serialization
starts with a non-whitespace character other than `]`.  Every value the
program ever writes into the output array satisfies this. -/
def GoodElem (v : Json) : Prop :=
  (∀ fuel ind rest, 12 ≤ fuel → sepHead rest →
    parseValue fuel (serVal ind v ++ rest) = some (v, rest)) ∧
  (∀ ind, ∃ c t, serVal ind v = c :: t ∧ ¬ isWsChar c ∧ c ≠ ']')

/-- The JSON objects persisted for a list of flat records. -/
def flatJsons (rs : List FlatRecord) : List Json :=
  rs.map (fun f => recJson f.toRecord)

/-- Concrete question record used to instantiate theorems with hypotheses. -/
def qdW : QuestionRecord := ⟨.str "q", .str "a", .str "s"⟩

/-- Concrete prompt configuration used to instantiate theorems with
hypotheses. -/
def cfgW : PromptConfig := ⟨"rg", "dg", "fm"⟩

/-- A model oracle that always answers with three enumerated items. -/
def genOkW : Nat → String → Except String String := fun _ _ => .ok "1. aa\n2. bb\n3. cc"

/-- A model oracle whose first call raises. -/
def genFailW : Nat → String → Except String String := fun _ _ => .error "boom"

/-- Concrete dataset item with the three expected fields. -/
def itemW : Json :=
  .obj (listToJObj [("question", .str "q"), ("correct_answer", .str "a"), ("support", .str "s")])

/-- Concrete one-item dataset. -/
def dsW : Json := .arr (listToJArr [itemW])

/-! Driver lemmas: per-item behavior of the `try`/`finally` body. -/

theorem poi_progress (cfg : PromptConfig) (p : String)
    (gen : Nat → String → Except String String) (qd : QuestionRecord) (st : DriverState) :
    (process_one_item cfg p gen qd st).1.progress = st.progress := by
  simp only [process_one_item]
  split
  · rfl
  · split
    · rfl
    · rfl

theorem poi_calls_none (cfg : PromptConfig) (p : String)
    (gen : Nat → String → Except String String) (qd : QuestionRecord) (st : DriverState)
    (h : (process_one_item cfg p gen qd st).2 = none) :
    (process_one_item cfg p gen qd st).1.calls = st.calls + 2 := by
  simp only [process_one_item] at h ⊢
  split at h
  · simp at h
  · split at h
    · simp at h
    · rfl

theorem poi_some_state (cfg : PromptConfig) (p : String)
    (gen : Nat → String → Except String String) (qd : QuestionRecord) (st : DriverState)
    (e : String) (h : (process_one_item cfg p gen qd st).2 = some e) :
    (process_one_item cfg p gen qd st).1.file = st.file ∧
    ((process_one_item cfg p gen qd st).1.calls = st.calls + 1 ∨
      (process_one_item cfg p gen qd st).1.calls = st.calls + 2) := by
  simp only [process_one_item] at h ⊢
  split at h
  · exact ⟨rfl, Or.inl rfl⟩
  · split at h
    · exact ⟨rfl, Or.inr rfl⟩
    · simp at h

theorem loop_none (cfg : PromptConfig) (p : String)
    (gen : Nat → String → Except String String) :
    ∀ (items : List QuestionRecord) (st : DriverState),
    (process_loop cfg p gen items st).2 = none →
    (process_loop cfg p gen items st).1.progress = st.progress + items.length ∧
    (process_loop cfg p gen items st).1.calls = st.calls + 2 * items.length := by
  intro items
  induction items with
  | nil => intro st _; simp [process_loop]
  | cons qd rest ih =>
    intro st h
    simp only [process_loop] at h ⊢
    rcases hs : (process_one_item cfg p gen qd st).2 with _ | e
    · rw [hs] at h
      dsimp only at h ⊢
      have h2 := ih _ h
      have hp := poi_progress cfg p gen qd st
      have hc := poi_calls_none cfg p gen qd st hs
      constructor
      · rw [h2.1]; dsimp only; rw [hp]; simp only [List.length_cons]; omega
      · rw [h2.2]; dsimp only; rw [hc]; simp only [List.length_cons]; omega
    · rw [hs] at h
      simp at h

theorem loop_some (cfg : PromptConfig) (p : String)
    (gen : Nat → String → Except String String) :
    ∀ (items : List QuestionRecord) (st st' : DriverState) (e : String),
    process_loop cfg p gen items st = (st', some e) →
    ∃ pre qd post, items = pre ++ qd :: post ∧
      st'.progress = st.progress + (pre.length + 1) ∧
      (st'.calls = st.calls + (2 * pre.length + 1) ∨
       st'.calls = st.calls + (2 * pre.length + 2)) := by
  intro items
  induction items with
  | nil => intro st st' e h; simp [process_loop] at h
  | cons qd rest ih =>
    intro st st' e h
    simp only [process_loop] at h
    rcases hs : (process_one_item cfg p gen qd st).2 with _ | e0
    · rw [hs] at h
      dsimp only at h
      obtain ⟨pre, qd', post, hsplit, hprog, hcalls⟩ := ih _ _ _ h
      refine ⟨qd :: pre, qd', post, by simp [hsplit], ?_, ?_⟩
      · rw [hprog]; dsimp only; rw [poi_progress cfg p gen qd st]
        simp only [List.length_cons]; omega
      · have hc := poi_calls_none cfg p gen qd st hs
        rcases hcalls with h1 | h1
        · left; rw [h1]; dsimp only; rw [hc]; simp only [List.length_cons]; omega
        · right; rw [h1]; dsimp only; rw [hc]; simp only [List.length_cons]; omega
    · rw [hs] at h
      dsimp only at h
      have hh : st' = { (process_one_item cfg p gen qd st).1 with
          progress := (process_one_item cfg p gen qd st).1.progress + 1 } ∧ e0 = e := by
        constructor
        · exact congrArg Prod.fst h.symm
        · have := congrArg Prod.snd h
          simp at this
          exact this
      refine ⟨[], qd, rest, rfl, ?_, ?_⟩
      · rw [hh.1]; dsimp only; rw [poi_progress cfg p gen qd st]; simp
      · rw [hh.1]
        have hc := (poi_some_state cfg p gen qd st e0 hs).2
        rcases hc with h1 | h1
        · left; dsimp only; rw [h1]; simp
        · right; dsimp only; rw [h1]; simp

/-- C3: for every dataset item, the second-stage (distractor-generation)
prompt is built from the question record alone — the rationale extracted
from the first stage's output is not passed to the prompt builder
(`src/run.py` lines 91-92), so the distractor prompt is the same for every
possible stage-1 model response. -/
theorem C3_dg_prompt_independent : ∀ (cfg : PromptConfig) (qd : QuestionRecord) (r r' : String),
    dg_prompt_for cfg qd r = dg_prompt_for cfg qd r' ∧
    dg_prompt_for cfg qd r = producePrompt cfg.dg qd none := by
  intro cfg qd r r'
  exact ⟨rfl, rfl⟩

/-- C4: the progress counter is incremented exactly once per dataset item
consumed (the `finally:` block), so after a full run (no propagated
exception) the reported count equals the total-item count computed by the
pre-scan of the dataset. -/
theorem C4_progress_equals_prescan :
    ∀ (cfg : PromptConfig) (p : String) (gen : Nat → String → Except String String)
      (dataset : Json) (items : List QuestionRecord) (st : DriverState) (err : Option String),
    read_test_data_iter dataset = some items →
    process_test_data cfg p gen dataset = some (st, err) →
    err = none →
    st.progress = items.length ∧ total_items dataset = some st.progress := by
  intro cfg p gen dataset items st err hr hp he
  subst he
  unfold process_test_data at hp
  rw [hr] at hp
  injection hp with hp
  have h2 : (process_loop cfg p gen items initState).2 = none := by rw [hp]
  have h3 := loop_none cfg p gen items initState h2
  have h4 : (process_loop cfg p gen items initState).1 = st := by rw [hp]
  rw [h4] at h3
  have hlen : st.progress = items.length := by simpa [initState] using h3.1
  refine ⟨hlen, ?_⟩
  unfold total_items
  rw [hr, hlen]
  rfl

theorem C4_witness :
    (process_loop cfgW "p" genOkW [qdW] initState).1.progress = 1 ∧
    total_items dsW = some (process_loop cfgW "p" genOkW [qdW] initState).1.progress := by
  have h := C4_progress_equals_prescan cfgW "p" genOkW dsW [qdW]
    (process_loop cfgW "p" genOkW [qdW] initState).1
    (process_loop cfgW "p" genOkW [qdW] initState).2
    (by rfl) (by rfl) (by rfl)
  exact ⟨h.1, h.2⟩

/-- C5: each model call is attempted exactly once per stage per item (a
successful run makes exactly `2 * n` calls) and if the backend raises the
exception propagates: the run ends at that item, with the remaining items
unprocessed and at most the failing item's one or two calls made. -/
theorem C5_one_call_per_stage :
    ∀ (cfg : PromptConfig) (p : String) (gen : Nat → String → Except String String)
      (items : List QuestionRecord) (st : DriverState) (err : Option String),
    process_loop cfg p gen items initState = (st, err) →
    (err = none → st.calls = 2 * items.length) ∧
    (∀ e, err = some e → ∃ pre qd post, items = pre ++ qd :: post ∧
      st.progress = pre.length + 1 ∧
      (st.calls = 2 * pre.length + 1 ∨ st.calls = 2 * pre.length + 2)) := by
  intro cfg p gen items st err h
  constructor
  · intro he
    subst he
    have h2 : (process_loop cfg p gen items initState).2 = none := by rw [h]
    have h3 := (loop_none cfg p gen items initState h2).2
    have h4 : (process_loop cfg p gen items initState).1 = st := by rw [h]
    rw [h4] at h3
    simpa [initState] using h3
  · intro e he
    subst he
    obtain ⟨pre, qd, post, hsplit, hprog, hcalls⟩ := loop_some cfg p gen items initState st e h
    refine ⟨pre, qd, post, hsplit, by simpa [initState] using hprog, ?_⟩
    rcases hcalls with h1 | h1
    · left; simpa [initState] using h1
    · right; simpa [initState] using h1

theorem C5_witness :
    ∃ pre qd post, ([qdW] : List QuestionRecord) = pre ++ qd :: post ∧
      (process_loop cfgW "p" genFailW [qdW] initState).1.progress = pre.length + 1 ∧
      ((process_loop cfgW "p" genFailW [qdW] initState).1.calls = 2 * pre.length + 1 ∨
       (process_loop cfgW "p" genFailW [qdW] initState).1.calls = 2 * pre.length + 2) := by
  exact (C5_one_call_per_stage cfgW "p" genFailW [qdW]
    (process_loop cfgW "p" genFailW [qdW] initState).1
    (process_loop cfgW "p" genFailW [qdW] initState).2 (by rfl)).2 "boom" (by rfl)

/-- C6: if a step of processing an item raises (in this model, either model
call — the append on `src/run.py` line 106 is the last step of the body and
is only reached after both stages complete), no record for that item is
appended: the output file is unchanged by that item. -/
theorem C6_no_append_on_failure :
    ∀ (cfg : PromptConfig) (p : String) (gen : Nat → String → Except String String)
      (qd : QuestionRecord) (st st' : DriverState) (e : String),
    process_one_item cfg p gen qd st = (st', some e) →
    st'.file = st.file := by
  intro cfg p gen qd st st' e h
  have h2 : (process_one_item cfg p gen qd st).2 = some e := by rw [h]
  have h3 := (poi_some_state cfg p gen qd st e h2).1
  have h4 : (process_one_item cfg p gen qd st).1 = st' := by rw [h]
  rw [h4] at h3
  exact h3

theorem C6_witness :
    (process_one_item cfgW "p" genFailW qdW initState).1.file = initState.file := by
  exact C6_no_append_on_failure cfgW "p" genFailW qdW initState
    (process_one_item cfgW "p" genFailW qdW initState).1 "boom" (by rfl)

/-- C7: every persisted result has exactly the five fields `question`,
`correct_answer`, `distractor1`, `distractor2`, `distractor3` in the
source's insertion order (`src/run.py` lines 99-105); `question` and
`correct_answer` are copied unchanged from the input question record, the
three distractor fields come from the distractor extraction of the
stage-two response, and the input's `support` field is never persisted. -/
theorem C7_result_record_shape :
    ∀ (cfg : PromptConfig) (p : String) (gen : Nat → String → Except String String)
      (qd : QuestionRecord) (st st' : DriverState),
    process_one_item cfg p gen qd st = (st', none) →
    ∃ r d, gen st.calls (producePrompt cfg.rg qd (some p)) = .ok r ∧
      gen (st.calls + 1) (producePrompt cfg.dg qd none) = .ok d ∧
      st'.file = append_to_output_file st.file (recJson
        { question := qd.question, correct_answer := qd.correct_answer,
          distractor1 := (format_distractor_output d).distractor1,
          distractor2 := (format_distractor_output d).distractor2,
          distractor3 := (format_distractor_output d).distractor3 }) ∧
      ∀ rr : ResultRecord, ∃ kvs, recJson rr = .obj kvs ∧
        jobjKeys kvs = ["question", "correct_answer", "distractor1", "distractor2", "distractor3"] ∧
        "support" ∉ jobjKeys kvs := by
  intro cfg p gen qd st st' h
  simp only [process_one_item] at h
  split at h
  next e heq => simp at h
  next r heq =>
    split at h
    next e2 heq2 => simp at h
    next d heq2 =>
      have hst := congrArg Prod.fst h
      dsimp only at hst
      refine ⟨r, d, heq, heq2, ?_, ?_⟩
      · rw [← hst]
      · intro rr
        refine ⟨_, rfl, rfl, ?_⟩
        simp [jobjKeys, listToJObj, recJson]

theorem C7_witness :
    (process_one_item cfgW "p" genOkW qdW initState).1.file
      = append_to_output_file initState.file (recJson
        { question := qdW.question, correct_answer := qdW.correct_answer,
          distractor1 := (format_distractor_output "1. aa\n2. bb\n3. cc").distractor1,
          distractor2 := (format_distractor_output "1. aa\n2. bb\n3. cc").distractor2,
          distractor3 := (format_distractor_output "1. aa\n2. bb\n3. cc").distractor3 }) := by
  obtain ⟨r, d, h1, h2, h3, h4⟩ := C7_result_record_shape cfgW "p" genOkW qdW initState
    (process_one_item cfgW "p" genOkW qdW initState).1 (by rfl)
  have h2' : Except.ok (ε := String) "1. aa\n2. bb\n3. cc" = Except.ok d := h2
  injection h2' with h5
  subst h5
  exact h3

theorem jarrToList_listToJArr (l : List Json) : jarrToList (listToJArr l) = l := by
  induction l with
  | nil => rfl
  | cons x xs ih => simp [listToJArr, jarrToList, ih]

theorem readItems_spec :
    ∀ (items : List Json),
    (∀ it ∈ items, ∃ kvs, it = Json.obj kvs ∧
      (dictGet kvs "question").isSome ∧ (dictGet kvs "correct_answer").isSome ∧
      (dictGet kvs "support").isSome) →
    ∃ recs, readItems items = some recs ∧ recs.length = items.length ∧
      List.Forall₂ (fun it rec => ∃ kvs, it = Json.obj kvs ∧
        dictGet kvs "question" = some rec.question ∧
        dictGet kvs "correct_answer" = some rec.correct_answer ∧
        dictGet kvs "support" = some rec.support) items recs := by
  intro items
  induction items with
  | nil => intro _; exact ⟨[], rfl, rfl, List.Forall₂.nil⟩
  | cons it rest ih =>
    intro hall
    obtain ⟨kvs, hobj, hq, hc, hs⟩ := hall it (List.mem_cons_self it rest)
    obtain ⟨q, hq⟩ := Option.isSome_iff_exists.mp hq
    obtain ⟨c, hc⟩ := Option.isSome_iff_exists.mp hc
    obtain ⟨s, hs⟩ := Option.isSome_iff_exists.mp hs
    obtain ⟨recs, hr, hlen, hfa⟩ := ih (fun x hx => hall x (List.mem_cons_of_mem it hx))
    refine ⟨⟨q, c, s⟩ :: recs, ?_, by simp [hlen], ?_⟩
    · subst hobj
      simp only [readItems, readItem, hq, hc, hs, hr]
    · exact List.Forall₂.cons ⟨kvs, hobj, hq, hc, hs⟩ hfa

/-- C8: for every dataset that is a JSON array of objects carrying the
fields `question`, `correct_answer` and `support`, the pre-scan total-item
count equals the array's length, and iterating the dataset yields one
`QuestionRecord` per array entry holding exactly those three fields
(`src/run.py` lines 16-24 and 80). -/
theorem C8_dataset_reading :
    ∀ (items : List Json),
    (∀ it ∈ items, ∃ kvs, it = Json.obj kvs ∧
      (dictGet kvs "question").isSome ∧ (dictGet kvs "correct_answer").isSome ∧
      (dictGet kvs "support").isSome) →
    ∃ recs, read_test_data_iter (.arr (listToJArr items)) = some recs ∧
      total_items (.arr (listToJArr items)) = some items.length ∧
      recs.length = items.length ∧
      List.Forall₂ (fun it rec => ∃ kvs, it = Json.obj kvs ∧
        dictGet kvs "question" = some rec.question ∧
        dictGet kvs "correct_answer" = some rec.correct_answer ∧
        dictGet kvs "support" = some rec.support) items recs := by
  intro items hall
  obtain ⟨recs, hr, hlen, hfa⟩ := readItems_spec items hall
  have hread : read_test_data_iter (.arr (listToJArr items)) = some recs := by
    simp only [read_test_data_iter, jarrToList_listToJArr]
    exact hr
  refine ⟨recs, hread, ?_, hlen, hfa⟩
  unfold total_items
  rw [hread]
  simp [hlen]

theorem C8_witness : read_test_data_iter dsW = some [qdW] ∧ total_items dsW = some 1 := by
  obtain ⟨recs, h1, h2, h3, h4⟩ := C8_dataset_reading [itemW] (by
    intro it hit
    simp only [List.mem_singleton] at hit
    subst hit
    exact ⟨_, rfl, by rfl, by rfl, by rfl⟩)
  exact ⟨by rfl, by simpa [dsW] using h2⟩

/-- C9: for every raw model output containing exactly two enumerated
distractor candidates, the distractor extraction returns those two strings
in the first two slots and the empty string in the third, and (being a
total function) raises nothing. -/
theorem C9_two_candidates :
    ∀ (raw a b : String),
    candidateLines raw = [a, b] →
    format_distractor_output raw = ⟨a, b, ""⟩ := by
  intro raw a b h
  unfold format_distractor_output
  rw [h]
  rfl

theorem C9_witness :
    format_distractor_output "1. aa\n2. bb" = ⟨"aa", "bb", ""⟩ :=
  C9_two_candidates "1. aa\n2. bb" "aa" "bb" (by rfl)

/-- C10: for every configured base path, model identifier and prompt style,
the output file path is exactly the base, a hyphen, the model identifier, a
hyphen, the prompt style, then `.json` (`src/run.py` line 141). -/
theorem C10_output_path : ∀ (base model prompt : String),
    output_file_path base model prompt = base ++ "-" ++ model ++ "-" ++ prompt ++ ".json" ∧
    (output_file_path base model prompt).data
      = base.data ++ '-' :: (model.data ++ '-' :: (prompt.data ++ ['.', 'j', 's', 'o', 'n'])) := by
  intro b m p
  refine ⟨rfl, ?_⟩
  simp [output_file_path, String.data_append]

/-! JSON roundtrip lemmas: the serializer's output parses back to the same
value, for the array-of-records shape the program writes. -/

theorem skipWs_cons_ws (c : Char) (cs : List Char) (h : isWsChar c) :
    skipWs (c :: cs) = skipWs cs := by
  simp [skipWs, h]

theorem skipWs_not_ws (c : Char) (cs : List Char) (h : ¬ isWsChar c) :
    skipWs (c :: cs) = c :: cs := by
  simp [skipWs, h]

theorem skipWs_spaces (n : Nat) (cs : List Char) :
    skipWs (spacesChars n ++ cs) = skipWs cs := by
  induction n with
  | zero => rfl
  | succ k ih =>
    have hrep : spacesChars (k + 1) ++ cs = ' ' :: (spacesChars k ++ cs) := by
      simp [spacesChars, List.replicate_succ]
    rw [hrep, skipWs_cons_ws ' ' _ (by decide), ih]

theorem parseStringBody_escList : ∀ (s rest : List Char),
    parseStringBody (escList s ++ '"' :: rest) = some (s, rest) := by
  intro s
  induction s with
  | nil =>
    intro rest
    rw [escList, List.nil_append, parseStringBody.eq_def]
    simp
  | cons c cs ih =>
    intro rest
    rw [escList, parseStringBody.eq_def]
    by_cases h1 : c = '"'
    · subst h1; simp +decide [escChar, unescChar, ih]
    · by_cases h2 : c = '\\'
      · subst h2; simp +decide [escChar, unescChar, ih]
      · by_cases h3 : c = '\n'
        · subst h3; simp +decide [escChar, unescChar, ih]
        · by_cases h4 : c = '\t'
          · subst h4; simp +decide [escChar, unescChar, ih]
          · by_cases h5 : c = '\r'
            · subst h5; simp +decide [escChar, unescChar, ih]
            · simp [escChar, h1, h2, h3, h4, h5, ih]

theorem parseValue_succ (fuel : Nat) (cs : List Char) :
    parseValue (fuel + 1) cs =
      (match cs with
      | [] => none
      | c :: rest =>
        if c = '"' then
          match parseStringBody rest with
          | some (s, r) => some (.str (String.mk s), r)
          | none => none
        else if c = '[' then
          match skipWs rest with
          | [] => none
          | c2 :: r => if c2 = ']' then some (.arr .nil, r) else parseElems fuel (c2 :: r) []
        else if c = lbraceChar then
          match skipWs rest with
          | [] => none
          | c2 :: r => if c2 = rbraceChar then some (.obj .nil, r) else parseMembers fuel (c2 :: r) []
        else if c = 'n' then
          match rest with
          | 'u' :: 'l' :: 'l' :: r => some (.null, r)
          | _ => none
        else if c = 't' then
          match rest with
          | 'r' :: 'u' :: 'e' :: r => some (.bool true, r)
          | _ => none
        else if c = 'f' then
          match rest with
          | 'a' :: 'l' :: 's' :: 'e' :: r => some (.bool false, r)
          | _ => none
        else parseNumber (c :: rest)) := rfl

theorem parseElems_succ (fuel : Nat) (cs : List Char) (acc : List Json) :
    parseElems (fuel + 1) cs acc =
      (match parseValue fuel cs with
      | none => none
      | some (v, rest) =>
        match skipWs rest with
        | [] => none
        | c2 :: r2 =>
          if c2 = ',' then parseElems fuel (skipWs r2) (acc ++ [v])
          else if c2 = ']' then some (.arr (listToJArr (acc ++ [v])), r2)
          else none) := rfl

theorem parseMembers_succ (fuel : Nat) (cs : List Char) (acc : List (String × Json)) :
    parseMembers (fuel + 1) cs acc =
      (match cs with
      | '"' :: rest =>
        match parseStringBody rest with
        | none => none
        | some (k, r1) =>
          match skipWs r1 with
          | [] => none
          | c2 :: r2 =>
            if c2 = ':' then
              match parseValue fuel (skipWs r2) with
              | none => none
              | some (v, r3) =>
                match skipWs r3 with
                | [] => none
                | c5 :: r4 =>
                  if c5 = ',' then parseMembers fuel (skipWs r4) (acc ++ [(String.mk k, v)])
                  else if c5 = rbraceChar then
                    some (.obj (listToJObj (acc ++ [(String.mk k, v)])), r4)
                  else none
            else none
      | _ => none) := rfl


theorem parseValue_str (fuel : Nat) (hf : 1 ≤ fuel) (v : String) (rest : List Char) :
    parseValue fuel ('"' :: (escList v.data ++ '"' :: rest)) = some (.str v, rest) := by
  obtain ⟨f, rfl⟩ : ∃ f, fuel = f + 1 := ⟨fuel - 1, by omega⟩
  rw [parseValue_succ]
  simp +decide [parseStringBody_escList]

theorem mk_data_eta (s : String) : String.mk s.data = s := rfl

theorem parseMembers_last (f : Nat) (hf : 1 ≤ f) (ind ind0 : Nat) (k v : String)
    (rest : List Char) (acc : List (String × Json)) :
    parseMembers (f + 1)
      (serMember ind k (.str v) ++ '\n' :: (spacesChars ind0 ++ rbraceChar :: rest)) acc
      = some (.obj (listToJObj (acc ++ [(k, .str v)])), rest) := by
  rw [parseMembers_succ]
  simp +decide [serMember, serVal, List.cons_append, List.append_assoc, List.nil_append,
    List.singleton_append, parseStringBody_escList, skipWs_not_ws, skipWs_cons_ws,
    skipWs_spaces, isWsChar, parseValue_str f hf, mk_data_eta]

theorem skipWs_serMember (ind : Nat) (k : String) (v : Json) (t : List Char) :
    skipWs (serMember ind k v ++ t) = serMember ind k v ++ t := by
  rw [serMember, List.cons_append, skipWs_not_ws _ _ (by decide)]

theorem parseMembers_cons (f : Nat) (hf : 1 ≤ f) (ind : Nat) (k v : String)
    (k2 : String) (v2 : Json) (R : List Char) (acc : List (String × Json)) :
    parseMembers (f + 1)
      (serMember ind k (.str v) ++ ',' :: '\n' :: (spacesChars ind ++ (serMember ind k2 v2 ++ R))) acc
      = parseMembers f (serMember ind k2 v2 ++ R) (acc ++ [(k, .str v)]) := by
  rw [parseMembers_succ]
  simp +decide [serMember, serVal, List.cons_append, List.append_assoc, List.nil_append,
    List.singleton_append, parseStringBody_escList, skipWs_not_ws, skipWs_cons_ws,
    skipWs_spaces, isWsChar, parseValue_str f hf, mk_data_eta]

theorem parseMembers_strs :
    ∀ (ms : List (String × String)) (k v : String) (fuel ind0 ind : Nat)
      (acc : List (String × Json)) (rest : List Char),
    2 * ms.length + 2 ≤ fuel →
    parseMembers fuel
      (serMember ind k (.str v) ++ serMembersRest ind (listToJObj (strMembers ms)) ++
        '\n' :: (spacesChars ind0 ++ rbraceChar :: rest)) acc
      = some (.obj (listToJObj (acc ++ strMembers ((k, v) :: ms))), rest) := by
  intro ms
  induction ms with
  | nil =>
    intro k v fuel ind0 ind acc rest hfuel
    obtain ⟨f, rfl⟩ : ∃ f, fuel = f + 1 := ⟨fuel - 1, by omega⟩
    have h1 : (1 : Nat) ≤ f := by omega
    simp only [strMembers, List.map_nil, listToJObj, serMembersRest, List.nil_append,
      List.append_nil]
    rw [parseMembers_last f h1]
    simp [strMembers]
  | cons m ms2 ih =>
    intro k v fuel ind0 ind acc rest hfuel
    obtain ⟨f, rfl⟩ : ∃ f, fuel = f + 1 := ⟨fuel - 1, by omega⟩
    have h1 : (1 : Nat) ≤ f := by omega
    obtain ⟨k2, v2⟩ := m
    have hsm : strMembers ((k2, v2) :: ms2) = (k2, Json.str v2) :: strMembers ms2 := by
      simp [strMembers]
    rw [hsm, listToJObj, serMembersRest]
    have hassoc :
        serMember ind k (.str v) ++
          (',' :: '\n' :: (spacesChars ind ++ serMember ind k2 (.str v2) ++
            serMembersRest ind (listToJObj (strMembers ms2)))) ++
          '\n' :: (spacesChars ind0 ++ rbraceChar :: rest)
        = serMember ind k (.str v) ++ ',' :: '\n' :: (spacesChars ind ++
            (serMember ind k2 (.str v2) ++
              (serMembersRest ind (listToJObj (strMembers ms2)) ++
                '\n' :: (spacesChars ind0 ++ rbraceChar :: rest)))) := by
      simp [List.append_assoc, List.cons_append]
    rw [hassoc, parseMembers_cons f h1]
    have := ih k2 v2 f ind0 ind (acc ++ [(k, Json.str v)]) rest (by simp at hfuel ⊢; omega)
    rw [List.append_assoc] at this
    rw [this]
    simp [strMembers]

theorem serMember_eq (ind : Nat) (k : String) (v : Json) :
    serMember ind k v = '"' :: (escList k.data ++ '"' :: ':' :: ' ' :: serVal ind v) := by
  simp [serMember]

theorem serVal_obj_cons (ind : Nat) (k : String) (v : Json) (tl : JObj) :
    serVal ind (.obj (.cons k v tl))
      = lbraceChar :: '\n' :: (spacesChars (ind + 4) ++ serMember (ind + 4) k v ++
          serMembersRest (ind + 4) tl ++ '\n' :: (spacesChars ind ++ [rbraceChar])) := by
  simp [serVal]

theorem serVal_arr_cons (ind : Nat) (x : Json) (tl : JArr) :
    serVal ind (.arr (.cons x tl))
      = '[' :: '\n' :: (spacesChars (ind + 4) ++ serVal (ind + 4) x ++
          serElemsRest (ind + 4) tl ++ '\n' :: (spacesChars ind ++ [']'])) := by
  simp [serVal]

theorem serVal_str (ind : Nat) (v : String) :
    serVal ind (.str v) = '"' :: (escList v.data ++ ['"']) := by
  simp [serVal]

theorem recJson_flat (f : FlatRecord) :
    recJson f.toRecord = .obj (listToJObj (strMembers (flatPairs f))) := by
  simp [recJson, FlatRecord.toRecord, flatPairs, strMembers]

theorem flatPairs_eq (f : FlatRecord) :
    flatPairs f = ("question", f.question) :: [("correct_answer", f.correct_answer),
      ("distractor1", f.distractor1), ("distractor2", f.distractor2),
      ("distractor3", f.distractor3)] := rfl

theorem strMembers_cons (k v : String) (ms : List (String × String)) :
    strMembers ((k, v) :: ms) = (k, Json.str v) :: strMembers ms := by
  simp [strMembers]

theorem listToJObj_cons (k : String) (v : Json) (ms : List (String × Json)) :
    listToJObj ((k, v) :: ms) = .cons k v (listToJObj ms) := rfl

theorem serMember_append (ind : Nat) (k : String) (v : Json) (t : List Char) :
    serMember ind k v ++ t
      = '"' :: (escList k.data ++ '"' :: ':' :: ' ' :: (serVal ind v ++ t)) := by
  rw [serMember_eq]
  simp [List.cons_append, List.append_assoc]

theorem parseValue_flatObj (fuel : Nat) (hf : 12 ≤ fuel) (ind : Nat) (f : FlatRecord)
    (rest : List Char) :
    parseValue fuel (serVal ind (recJson f.toRecord) ++ rest)
      = some (recJson f.toRecord, rest) := by
  obtain ⟨g, rfl⟩ : ∃ g, fuel = g + 1 := ⟨fuel - 1, by omega⟩
  rw [recJson_flat, flatPairs_eq, strMembers_cons, listToJObj_cons, serVal_obj_cons,
    parseValue_succ]
  simp +decide [List.cons_append, List.append_assoc, List.singleton_append, List.nil_append,
    skipWs_cons_ws, skipWs_spaces, skipWs_serMember, isWsChar]
  split
  next heq =>
    rw [serMember_append] at heq
    simp at heq
  next c2 r heq =>
    rw [serMember_append] at heq
    injection heq with h1 h2
    subst h1
    subst h2
    rw [if_neg (by decide : ¬ ('"' = rbraceChar))]
    rw [← serMember_append, ← List.append_assoc]
    rw [parseMembers_strs _ "question" f.question g ind (ind + 4) [] rest (by simp; omega)]
    simp [strMembers_cons, listToJObj_cons]

theorem listToJArr_cons (x : Json) (xs : List Json) :
    listToJArr (x :: xs) = .cons x (listToJArr xs) := rfl

theorem goodElem_flat (f : FlatRecord) : GoodElem (recJson f.toRecord) := by
  constructor
  · intro fuel ind rest hf _
    exact parseValue_flatObj fuel hf ind f rest
  · intro ind
    have h : serVal ind (recJson f.toRecord)
        = lbraceChar :: ('\n' :: (spacesChars (ind + 4) ++
            serMember (ind + 4) "question" (.str f.question) ++
            serMembersRest (ind + 4) (listToJObj (strMembers
              [("correct_answer", f.correct_answer), ("distractor1", f.distractor1),
               ("distractor2", f.distractor2), ("distractor3", f.distractor3)])) ++
            '\n' :: (spacesChars ind ++ [rbraceChar]))) := by
      rw [recJson_flat, flatPairs_eq, strMembers_cons, listToJObj_cons, serVal_obj_cons]
    exact ⟨lbraceChar, _, h, by decide, by decide⟩

theorem serVal_num5 (ind : Nat) : serVal ind (.num 5) = ['5'] := by
  simp [serVal]
  rfl

theorem goodElem_num5 : GoodElem (.num 5) := by
  constructor
  · intro fuel ind rest hf hsep
    obtain ⟨g, rfl⟩ : ∃ g, fuel = g + 1 := ⟨fuel - 1, by omega⟩
    rw [serVal_num5, List.cons_append, List.nil_append, parseValue_succ]
    cases rest with
    | nil =>
      simp +decide [parseNumber, startsFloat, digitsToNat, digitVal]
    | cons c t =>
      rcases hsep with h | h
      · subst h
        simp +decide [parseNumber, startsFloat, digitsToNat, digitVal]
      · subst h
        simp +decide [parseNumber, startsFloat, digitsToNat, digitVal]
  · intro ind
    exact ⟨'5', [], by rw [serVal_num5], by decide, by decide⟩

theorem serElemsRest_cons (ind : Nat) (y : Json) (tl : JArr) :
    serElemsRest ind (.cons y tl)
      = ',' :: '\n' :: (spacesChars ind ++ serVal ind y ++ serElemsRest ind tl) := by
  simp [serElemsRest]

theorem sepHead_comma (t : List Char) : sepHead (',' :: t) := Or.inl rfl

theorem sepHead_nl (t : List Char) : sepHead ('\n' :: t) := Or.inr rfl

theorem parseElems_good :
    ∀ (xs : List Json) (x : Json) (fuel ind0 ind : Nat) (acc : List Json) (rest : List Char),
    13 * xs.length + 13 ≤ fuel →
    GoodElem x → (∀ v ∈ xs, GoodElem v) →
    parseElems fuel
      (serVal ind x ++ (serElemsRest ind (listToJArr xs) ++
        '\n' :: (spacesChars ind0 ++ ']' :: rest))) acc
      = some (.arr (listToJArr (acc ++ x :: xs)), rest) := by
  intro xs
  induction xs with
  | nil =>
    intro x fuel ind0 ind acc rest hfuel hx _
    obtain ⟨g, rfl⟩ : ∃ g, fuel = g + 1 := ⟨fuel - 1, by omega⟩
    rw [parseElems_succ]
    simp only [listToJArr, serElemsRest, List.nil_append]
    rw [hx.1 g ind _ (by omega) (sepHead_nl _)]
    dsimp only
    rw [skipWs_cons_ws '\n' _ (by decide), skipWs_spaces, skipWs_not_ws ']' _ (by decide)]
    simp +decide
  | cons y ys ih =>
    intro x fuel ind0 ind acc rest hfuel hx hall
    obtain ⟨g, rfl⟩ : ∃ g, fuel = g + 1 := ⟨fuel - 1, by omega⟩
    rw [parseElems_succ]
    rw [listToJArr_cons, serElemsRest_cons]
    rw [show (',' :: '\n' :: (spacesChars ind ++ serVal ind y ++ serElemsRest ind (listToJArr ys)) ++
        '\n' :: (spacesChars ind0 ++ ']' :: rest))
      = ',' :: '\n' :: (spacesChars ind ++ (serVal ind y ++ (serElemsRest ind (listToJArr ys) ++
          '\n' :: (spacesChars ind0 ++ ']' :: rest)))) from by
        simp [List.cons_append, List.append_assoc]]
    rw [hx.1 g ind _ (by omega) (sepHead_comma _)]
    dsimp only
    rw [skipWs_not_ws ',' _ (by decide)]
    dsimp only
    rw [if_pos rfl]
    rw [skipWs_cons_ws '\n' _ (by decide), skipWs_spaces]
    obtain ⟨c, t, hser, hnw, _⟩ := (hall y (List.mem_cons_self y ys)).2 ind
    rw [hser, List.cons_append, skipWs_not_ws c _ hnw, ← List.cons_append, ← hser]
    rw [ih y g ind0 ind (acc ++ [x]) rest (by simp at hfuel ⊢; omega)
      (hall y (List.mem_cons_self y ys)) (fun v hv => hall v (List.mem_cons_of_mem y hv))]
    simp

theorem parseValue_arrGood (x : Json) (xs : List Json) (fuel ind : Nat) (rest : List Char)
    (hf : 13 * xs.length + 14 ≤ fuel) (hx : GoodElem x) (hxs : ∀ v ∈ xs, GoodElem v) :
    parseValue fuel (serVal ind (.arr (listToJArr (x :: xs))) ++ rest)
      = some (.arr (listToJArr (x :: xs)), rest) := by
  obtain ⟨g, rfl⟩ : ∃ g, fuel = g + 1 := ⟨fuel - 1, by omega⟩
  rw [listToJArr_cons, serVal_arr_cons, parseValue_succ]
  rw [show ('[' :: '\n' :: (spacesChars (ind + 4) ++ serVal (ind + 4) x ++
        serElemsRest (ind + 4) (listToJArr xs) ++ '\n' :: (spacesChars ind ++ [']'])) ++ rest)
    = '[' :: '\n' :: (spacesChars (ind + 4) ++ (serVal (ind + 4) x ++
        (serElemsRest (ind + 4) (listToJArr xs) ++ '\n' :: (spacesChars ind ++ ']' :: rest))))
    from by simp [List.cons_append, List.append_assoc]]
  dsimp only
  rw [if_neg (by decide : ¬ ('[' = '"')), if_pos rfl]
  rw [skipWs_cons_ws '\n' _ (by decide), skipWs_spaces]
  obtain ⟨c, t, hser, hnw, hnb⟩ := hx.2 (ind + 4)
  rw [hser, List.cons_append, skipWs_not_ws c _ hnw]
  dsimp only
  rw [if_neg hnb]
  rw [← List.cons_append, ← hser]
  rw [parseElems_good xs x g ind (ind + 4) [] rest (by omega) hx hxs]
  simp [listToJArr_cons]

theorem serVal_good_len (v : Json) (ind : Nat) (hv : GoodElem v) :
    1 ≤ (serVal ind v).length := by
  obtain ⟨c, t, hc, _, _⟩ := hv.2 ind
  rw [hc]
  simp

theorem serElemsRest_good_len :
    ∀ (ys : List Json) (ind : Nat), (∀ v ∈ ys, GoodElem v) →
    7 * ys.length ≤ (serElemsRest (ind + 4) (listToJArr ys)).length := by
  intro ys
  induction ys with
  | nil => intro ind _; simp
  | cons y tl ih =>
    intro ind hall
    rw [listToJArr_cons, serElemsRest_cons]
    have h1 := serVal_good_len y (ind + 4) (hall y (List.mem_cons_self y tl))
    have h2 := ih ind (fun v hv => hall v (List.mem_cons_of_mem y hv))
    simp only [List.length_cons, List.length_append, spacesChars, List.length_replicate]
    omega

theorem serArr_len_lower (x : Json) (xs : List Json) (ind : Nat)
    (hx : GoodElem x) (hxs : ∀ v ∈ xs, GoodElem v) :
    9 + 7 * xs.length ≤ (serVal ind (.arr (listToJArr (x :: xs)))).length := by
  rw [listToJArr_cons, serVal_arr_cons]
  have h1 := serVal_good_len x (ind + 4) hx
  have h2 := serElemsRest_good_len xs ind hxs
  simp only [List.length_cons, List.length_append, spacesChars, List.length_replicate]
  omega

theorem jsonLoads_serArrGood (x : Json) (xs : List Json)
    (hx : GoodElem x) (hxs : ∀ v ∈ xs, GoodElem v) :
    jsonLoadsChars (serVal 0 (.arr (listToJArr (x :: xs))))
      = some (.arr (listToJArr (x :: xs))) := by
  unfold jsonLoadsChars
  have hlen := serArr_len_lower x xs 0 hx hxs
  have hskip : skipWs (serVal 0 (.arr (listToJArr (x :: xs))))
      = serVal 0 (.arr (listToJArr (x :: xs))) := by
    rw [listToJArr_cons, serVal_arr_cons, skipWs_not_ws '[' _ (by decide)]
  rw [hskip]
  rw [show serVal 0 (.arr (listToJArr (x :: xs)))
      = serVal 0 (.arr (listToJArr (x :: xs))) ++ [] from by simp]
  rw [parseValue_arrGood x xs _ 0 [] (by simp; omega) hx hxs]
  simp [skipWs]

theorem serElemsRest_snoc : ∀ (ys : List Json) (d : Json) (ind : Nat),
    serElemsRest ind (listToJArr (ys ++ [d]))
      = serElemsRest ind (listToJArr ys) ++ ',' :: '\n' :: (spacesChars ind ++ serVal ind d) := by
  intro ys
  induction ys with
  | nil =>
    intro d ind
    simp only [List.nil_append, listToJArr, serElemsRest_cons]
    simp [serElemsRest]
  | cons y tl ih =>
    intro d ind
    simp only [List.cons_append, listToJArr_cons, serElemsRest_cons, ih]
    simp [List.append_assoc]

theorem serArr_snoc_len (x : Json) (xs : List Json) (d : Json) (ind : Nat) :
    (serVal ind (.arr (listToJArr (x :: xs)))).length
      ≤ (serVal ind (.arr (listToJArr ((x :: xs) ++ [d])))).length := by
  have hc : (x :: xs) ++ [d] = x :: (xs ++ [d]) := rfl
  rw [hc, listToJArr_cons, listToJArr_cons, serVal_arr_cons, serVal_arr_cons, serElemsRest_snoc]
  simp only [List.length_cons, List.length_append]
  omega

theorem append_step (x : Json) (xs : List Json) (d : Json)
    (hx : GoodElem x) (hxs : ∀ v ∈ xs, GoodElem v) :
    append_to_output_file (some (serVal 0 (.arr (listToJArr (x :: xs))))) d
      = some (serVal 0 (.arr (listToJArr ((x :: xs) ++ [d])))) := by
  unfold append_to_output_file
  dsimp only
  rw [jsonLoads_serArrGood x xs hx hxs]
  dsimp only
  rw [jarrToList_listToJArr]
  rw [List.drop_eq_nil_of_le (serArr_snoc_len x xs d 0)]
  simp

theorem flatJsons_cons_shape (rs : List FlatRecord) (y : FlatRecord) :
    ∃ z zs, flatJsons (rs ++ [y]) = z :: zs := by
  cases h : flatJsons (rs ++ [y]) with
  | nil => exfalso; simp [flatJsons] at h
  | cons z zs => exact ⟨z, zs, rfl⟩

theorem goodElem_flatJsons (rs : List FlatRecord) : ∀ v ∈ flatJsons rs, GoodElem v := by
  intro v hv
  simp only [flatJsons, List.mem_map] at hv
  obtain ⟨f, _, rfl⟩ := hv
  exact goodElem_flat f

theorem runAppends_eq : ∀ (rs : List FlatRecord) (r : FlatRecord),
    runAppends ((rs ++ [r]).map FlatRecord.toRecord)
      = some (serVal 0 (.arr (listToJArr (flatJsons (rs ++ [r]))))) := by
  intro rs
  induction rs using List.reverseRecOn with
  | nil =>
    intro r
    simp [runAppends, append_to_output_file, flatJsons]
  | append_singleton rs' y ih =>
    intro r
    have hmap : ((rs' ++ [y]) ++ [r]).map FlatRecord.toRecord
        = ((rs' ++ [y]).map FlatRecord.toRecord) ++ [r.toRecord] := by simp
    rw [hmap]
    unfold runAppends
    rw [List.foldl_append]
    have hdef : ∀ L : List ResultRecord,
        List.foldl (fun f r => append_to_output_file f (recJson r)) none L = runAppends L :=
      fun L => rfl
    rw [List.foldl_cons, List.foldl_nil, hdef, ih y]
    obtain ⟨z, zs, hzzs⟩ := flatJsons_cons_shape rs' y
    have hgood := goodElem_flatJsons (rs' ++ [y])
    rw [hzzs] at hgood ⊢
    rw [append_step z zs (recJson r.toRecord) (hgood z (by simp))
      (fun v hv => hgood v (by simp [hv]))]
    have hfin : flatJsons ((rs' ++ [y]) ++ [r]) = (z :: zs) ++ [recJson r.toRecord] := by
      rw [← hzzs]
      simp [flatJsons]
    rw [hfin]

/-- C1: starting from an absent output file, after every append the output
file is exactly the pretty-printed serialization of all records appended so
far, in order, and it parses back as that JSON array — in particular
`append(r1); append(r2)` yields a file whose parsed content is `[r1, r2]`.
(The seek-without-truncate rewrite never leaves stale bytes here because the
serialization only grows along a pure append sequence.) -/
theorem C1_sequential_appends : ∀ (rs : List FlatRecord) (r : FlatRecord),
    runAppends ((rs ++ [r]).map FlatRecord.toRecord)
      = some (serVal 0 (.arr (listToJArr (flatJsons (rs ++ [r]))))) ∧
    loadsFile (runAppends ((rs ++ [r]).map FlatRecord.toRecord))
      = some (.arr (listToJArr (flatJsons (rs ++ [r])))) := by
  intro rs r
  refine ⟨runAppends_eq rs r, ?_⟩
  rw [runAppends_eq rs r]
  unfold loadsFile
  obtain ⟨z, zs, hzzs⟩ := flatJsons_cons_shape rs r
  have hgood := goodElem_flatJsons (rs ++ [r])
  rw [hzzs] at hgood ⊢
  exact jsonLoads_serArrGood z zs (hgood z (by simp)) (fun v hv => hgood v (by simp [hv]))

theorem append_corrupt (old : List Char) (d : Json) (h : jsonLoadsChars old = none) :
    append_to_output_file (some old) d
      = some (serVal 0 (.arr (listToJArr [d]))
          ++ old.drop (serVal 0 (.arr (listToJArr [d]))).length) := by
  unfold append_to_output_file
  dsimp only
  rw [h]
  rfl

theorem append_wrap (old : List Char) (v d : Json) (h : jsonLoadsChars old = some v)
    (hv : ∀ xs, v ≠ .arr xs) :
    append_to_output_file (some old) d
      = some (serVal 0 (.arr (listToJArr [v, d]))
          ++ old.drop (serVal 0 (.arr (listToJArr [v, d]))).length) := by
  unfold append_to_output_file
  dsimp only
  rw [h]
  cases v with
  | arr xs => exact absurd rfl (hv xs)
  | null => rfl
  | bool b => rfl
  | num n => rfl
  | str s => rfl
  | obj ms => rfl

/-- C2 (amended): when the existing output-file content fails to parse as
JSON, `append(r)` treats it as empty and raises nothing; the rewritten file
is the serialization of `[r]` followed by whatever old bytes extend past it
(the code seeks to the start without truncating), so it parses as exactly
`[r]` whenever the old content is no longer than the new serialization.
Existing content that parses as a valid NON-array JSON value is not
discarded: the code wraps it (`existing_data = [existing_data]`), and the
file afterwards holds the serialization of `[old, r]` (again plus any
surviving tail). -/
theorem C2_amended_append_behavior :
    ∀ (old : List Char) (f : FlatRecord),
    (jsonLoadsChars old = none →
      append_to_output_file (some old) (recJson f.toRecord)
        = some (serVal 0 (.arr (listToJArr [recJson f.toRecord]))
            ++ old.drop (serVal 0 (.arr (listToJArr [recJson f.toRecord]))).length) ∧
      (old.length ≤ (serVal 0 (.arr (listToJArr [recJson f.toRecord]))).length →
        loadsFile (append_to_output_file (some old) (recJson f.toRecord))
          = some (.arr (listToJArr [recJson f.toRecord])))) ∧
    (∀ v, jsonLoadsChars old = some v → (∀ xs, v ≠ .arr xs) →
      append_to_output_file (some old) (recJson f.toRecord)
        = some (serVal 0 (.arr (listToJArr [v, recJson f.toRecord]))
            ++ old.drop (serVal 0 (.arr (listToJArr [v, recJson f.toRecord]))).length)) := by
  intro old f
  constructor
  · intro h
    refine ⟨append_corrupt old _ h, ?_⟩
    intro hlen
    rw [append_corrupt old _ h, List.drop_eq_nil_of_le hlen, List.append_nil]
    unfold loadsFile
    exact jsonLoads_serArrGood (recJson f.toRecord) [] (goodElem_flat f) (by simp)
  · intro v h hv
    exact append_wrap old v _ h hv

/-- C2 counterexample: the content `5` is valid JSON that is not an array,
so by the claim appending a record `r` should leave a file parsing as
exactly `[r]`; the code instead wraps the old value, and the file parses as
`[5, r]`. -/
theorem C2_counterexample :
    jsonLoadsChars ['5'] = some (.num 5) ∧
    loadsFile (append_to_output_file (some ['5'])
        (recJson (FlatRecord.toRecord ⟨"q", "a", "x", "y", "z"⟩)))
      ≠ some (.arr (listToJArr [recJson (FlatRecord.toRecord ⟨"q", "a", "x", "y", "z"⟩)])) := by
  have h5 : jsonLoadsChars ['5'] = some (.num 5) := rfl
  refine ⟨h5, ?_⟩
  have hgood2 : ∀ v ∈ [recJson (FlatRecord.toRecord ⟨"q", "a", "x", "y", "z"⟩)], GoodElem v := by
    intro v hv
    simp only [List.mem_singleton] at hv
    subst hv
    exact goodElem_flat _
  rw [append_wrap ['5'] (.num 5) _ h5 (fun xs h => by cases h)]
  have hdrop : (['5'] : List Char).drop
      (serVal 0 (.arr (listToJArr [Json.num 5,
        recJson (FlatRecord.toRecord ⟨"q", "a", "x", "y", "z"⟩)]))).length = [] := by
    refine List.drop_eq_nil_of_le ?_
    have := serArr_len_lower (.num 5)
      [recJson (FlatRecord.toRecord ⟨"q", "a", "x", "y", "z"⟩)] 0 goodElem_num5 hgood2
    simp only [List.length_cons, List.length_nil]
    omega
  rw [hdrop, List.append_nil]
  have hlf : ∀ cs : List Char, loadsFile (some cs) = jsonLoadsChars cs := fun _ => rfl
  rw [hlf]
  rw [jsonLoads_serArrGood (.num 5) _ goodElem_num5 hgood2]
  intro hcontra
  simp [listToJArr] at hcontra

theorem C2_witness :
    loadsFile (append_to_output_file (some ['x'])
        (recJson (FlatRecord.toRecord ⟨"q", "a", "x", "y", "z"⟩)))
      = some (.arr (listToJArr [recJson (FlatRecord.toRecord ⟨"q", "a", "x", "y", "z"⟩)])) := by
  have h := (C2_amended_append_behavior ['x'] ⟨"q", "a", "x", "y", "z"⟩).1 (by rfl)
  refine h.2 ?_
  have := serArr_len_lower (recJson (FlatRecord.toRecord ⟨"q", "a", "x", "y", "z"⟩)) [] 0
    (goodElem_flat _) (by simp)
  simp only [List.length_cons, List.length_nil] at this ⊢
  omega
